import Mathlib

/-!
# Verification of the algebraic-effect runtime

This development embeds the JavaScript algebraic-effect runtime of this
repository (the `operation`/`bind`/`handler`/`go` core and its example
handlers) into Lean and proves the properties its specification states.

In the JavaScript source a program is either a plain value (a leaf) or an
operation object `{ _IS_OPERATION_: true, name, params, resume }`; the
embedding makes the leaf case an explicit constructor.  JavaScript runtime
values that appear as operation parameters and answers are modelled by the
first-order value domain `JSVal`.
-/

namespace AlgEff

/-- The domain of plain JavaScript values used by the runtime's programs:
numbers, strings, booleans, `undefined`, `NaN`, and arrays.  The scenarios in
the source only use integral numbers, so numbers are modelled as `Int`. -/
inductive JSVal : Type where
  | num : Int → JSVal
  | str : String → JSVal
  | bool : Bool → JSVal
  | undefined : JSVal
  | nan : JSVal
  | arr : List JSVal → JSVal

/-- JavaScript truthiness of a value (`b ? m : n` in `choose`). -/
def jsTruthy : JSVal → Bool
  | .num n => n ≠ 0
  | .str s => s ≠ ""
  | .bool b => b
  | .undefined => false
  | .nan => false
  | .arr _ => true

/-- JavaScript `+` on the numbers the runtime manipulates; any non-numeric
operand gives `NaN`, as in JavaScript arithmetic on `undefined`. -/
def jsAdd : JSVal → JSVal → JSVal
  | .num a, .num b => .num (a + b)
  | _, _ => .nan

/-- JavaScript `-` on the numbers the runtime manipulates. -/
def jsSub : JSVal → JSVal → JSVal
  | .num a, .num b => .num (a - b)
  | _, _ => .nan

/-- `Math.max` on the numbers the runtime manipulates; non-numeric operands
give `NaN` as in JavaScript. -/
def jsMax : JSVal → JSVal → JSVal
  | .num a, .num b => .num (max a b)
  | _, _ => .nan

/-- Reading the first element of a JavaScript argument list: a missing
argument reads as `undefined`. -/
def headJS : List JSVal → JSVal
  | [] => .undefined
  | x :: _ => x

/-- JavaScript array indexing `xs[i]`: out-of-bounds access (including the
negative index produced by `xs[xs.length - 1]` on an empty array) yields
`undefined`. -/
def jsIndex (xs : List JSVal) (i : Int) : JSVal :=
  if h : 0 ≤ i ∧ i.toNat < xs.length then xs.get ⟨i.toNat, h.2⟩ else .undefined

/-- The operation tree `Program<A>` of the runtime.

`leaf` is a terminal plain value (in the untyped source a leaf is the value
itself, any object without the `_IS_OPERATION_` mark).  `node` is an
operation object: the effect name, its parameters, and the continuation
`resume` from an answer to the rest of the program.  The source's `operation`
constructor defaults `resume` to the identity injection of the answer, i.e.
to `Program.leaf` here. -/
inductive Program (α : Type) : Type where
  | leaf : α → Program α
  | node : String → List JSVal → (JSVal → Program α) → Program α

/-- `operation(name, params, resume = id)` with the default continuation:
a bare operation returns whatever answer it is given. -/
def operation (name : String) (params : List JSVal := []) : Program JSVal :=
  .node name params .leaf

/-- `bind(program, then)`: graft `then` onto every leaf of `program`.  A leaf
is replaced by `then` applied to its value; a node is rebuilt with the
composed continuation `a ↦ bind(resume(a), then)`. -/
def bind {α β : Type} : Program α → (α → Program β) → Program β
  | .leaf v, then_ => then_ v
  | .node name params resume, then_ =>
      .node name params (fun a => bind (resume a) then_)

/-- `all(computations)`: sequence a list of programs, collecting all results
into a list, left to right. -/
def all {α : Type} : List (Program α) → Program (List α)
  | [] => .leaf []
  | c :: rest => bind c fun x => bind (all rest) fun xs => .leaf (x :: xs)

/-- `ap(cfunc, ...cargs)`: apply a program producing a function to argument
programs.  The JavaScript spread `func(...args)` passes the collected
argument array to `func`; the embedding passes it as a list. -/
def ap {γ α : Type} (cfunc : Program (List γ → Program α))
    (cargs : List (Program γ)) : Program α :=
  bind cfunc fun func => bind (all cargs) fun args => func args

/-- `seq(...computations)`: sequence the programs and keep the last result,
read off with `xs[xs.length - 1]` (which is `undefined` on an empty list). -/
def seq (computations : List (Program JSVal)) : Program JSVal :=
  bind (all computations) fun xs => .leaf (jsIndex xs (xs.length - 1))

/-- A Handler model: a table of per-effect-name implementations plus the
leaf transform.  In the source `return` is optional and, when absent, a leaf
is returned unchanged; since in the untyped source a leaf is the plain value
itself, an absent `return` is exactly `ret = Program.leaf` (with `α = β`).
An implementation receives the operation's parameters and the continuation
`a ↦ evaluate(resume(a))` and its return value becomes the evaluation
result. -/
structure Model (α β : Type) : Type where
  ret : α → Program β
  impl : String → Option (List JSVal → (JSVal → Program β) → Program β)

/-- `handler(model)`'s inner `evaluate`: fold a program under a model.  A
leaf goes through the `return` transform; a node whose name the model claims
is passed to the model's implementation together with the continuation
`a ↦ evaluate(resume(a))`; an unclaimed node is re-wrapped verbatim with its
subtrees evaluated under the same model. -/
def handler {α β : Type} (model : Model α β) : Program α → Program β
  | .leaf v => model.ret v
  | .node name params resume =>
      match model.impl name with
      | some f => f params (fun a => handler model (resume a))
      | none => .node name params (fun a => handler model (resume a))

/-- Every operation name performed anywhere in the program is absent from
the model's table. -/
inductive Avoids {α β : Type} (model : Model α β) : Program α → Prop where
  | leaf (v : α) : Avoids model (.leaf v)
  | node (name : String) (params : List JSVal) (resume : JSVal → Program α)
      (hname : model.impl name = none)
      (hres : ∀ a, Avoids model (resume a)) :
      Avoids model (.node name params resume)

/-- The model table with no entries and no `return` transform. -/
def emptyModel : Model JSVal JSVal where
  ret := Program.leaf
  impl := fun _ => none

/-- The name of the operation at the root of a program, if the program is
not a plain value. -/
def opName {α : Type} : Program α → Option String
  | .leaf _ => none
  | .node name _ _ => some name

/-- The behaviour of a sequential generator routine, as replayed by `go`:
after consuming some history of answers the generator is either finished
with a result (`done`) or suspended on a yielded sub-program with a
continuation keyed by the next answer (`step`).  `go(gf, args, history)`
always calls the factory with the same `args`, so the factory applied to its
arguments is modelled by the routine value it deterministically produces —
the referential transparency of the routine body is the load-bearing
precondition the specification itself states for replay. -/
inductive Routine : Type where
  | done : JSVal → Routine
  | step : Program JSVal → (JSVal → Routine) → Routine

/-- Replaying a history of answers into a fresh generator:
`history.reduce((_, x) => gen.next(x), gen.next())`.  Stepping a finished
generator again yields `{done: true, value: undefined}` in JavaScript, hence
the `.done .undefined` case. -/
def stepRoutine : Routine → List JSVal → Routine
  | r, [] => r
  | .done _, _ :: rest => stepRoutine (.done .undefined) rest
  | .step _ k, x :: rest => stepRoutine (k x) rest

/-- The tree denoted by a routine position: a finished routine is a leaf,
a suspended routine binds the rest of the routine onto every leaf of the
yielded sub-program. -/
def goA : Routine → Program JSVal
  | .done v => .leaf v
  | .step p k => bind p fun x => goA (k x)

/-- `go(gf, args, history)`: build the program tree of a sequential routine
by replaying the recorded answer history from the start; `go_replay` below
recovers the literal recursion of the source. -/
def go (gf : Routine) (history : List JSVal) : Program JSVal :=
  goA (stepRoutine gf history)

/-- A Handler model in the generator style of the source's final runtime:
each implementation is a generator function, invoked through
`go(model[name], params.concat(continuation))`.  The embedding applies the
factory to the parameters and the continuation, giving the routine that
generator deterministically produces. -/
structure GenModel : Type where
  ret : JSVal → Program JSVal
  impl : String → Option (List JSVal → (JSVal → Program JSVal) → Routine)

/-- The generator-style `handler(model)`'s inner `evaluate`: as `handler`,
but a claimed operation runs the model's generator via `go`, the
continuation being `x ↦ evaluate(resume(x))`. -/
def ghandler (model : GenModel) : Program JSVal → Program JSVal
  | .leaf v => model.ret v
  | .node name params resume =>
      match model.impl name with
      | some gf => go (gf params (fun x => ghandler model (resume x))) []
      | none => .node name params (fun x => ghandler model (resume x))

/-- `decide`: the nullary nondeterministic-choice operation. -/
def decide : Program JSVal := operation "decide"

/-- `choose(m, n)`: decide, then continue with `m` on a truthy answer and
with `n` otherwise. -/
def choose (m n : Program JSVal) : Program JSVal :=
  bind decide fun b => if jsTruthy b then m else n

/-- The maximizing-choice handler: its `decide` generator resumes the
continuation with both branches and combines the two results with
`Math.max`. -/
def pickMax : GenModel where
  ret := Program.leaf
  impl := fun name =>
    if name = "decide" then
      some fun _ resume =>
        .step (resume (.bool true)) fun x =>
          .step (resume (.bool false)) fun y => .done (jsMax x y)
    else none

/-- The maximizing-choice scenario program: choose `x` from `{15, 30}`,
then `y` from `{5, 10}`, and return `x - y`. -/
def pf : Program JSVal :=
  go
    (.step (choose (.leaf (.num 15)) (.leaf (.num 30))) fun x =>
      .step (choose (.leaf (.num 5)) (.leaf (.num 10))) fun y =>
        .done (jsSub x y)) []

/-- `get`: the nullary state-reading operation. -/
def get : Program JSVal := operation "get"

/-- `put(s)`: the state-writing operation carrying the new state. -/
def put (s : JSVal) : Program JSVal := operation "put" [s]

/-- The carrier of the state handler's output: a function from the argument
list that `ap` later supplies (carrying the old state) to the resulting
program. -/
abbrev StateCarrier : Type := List JSVal → Program JSVal

/-- The state handler of the source:
`return: x => _ => x`, `get: resume => s => ap(resume(s), s)` and
`put: (s, resume) => _ => ap(resume(), s)`.  Carriers are applied through
`ap`'s argument list, the state being its single element; `resume()` in
`put` passes no answer, i.e. `undefined`. -/
def state : Model JSVal StateCarrier where
  ret := fun x => .leaf fun _ => .leaf x
  impl := fun name =>
    if name = "get" then
      some fun _ resume =>
        .leaf fun args => ap (resume (headJS args)) [.leaf (headJS args)]
    else if name = "put" then
      some fun params resume =>
        .leaf fun _ => ap (resume .undefined) [.leaf (headJS params)]
    else none

/-- Programs whose every operation is a `get` or a `put` (a `put` carrying
its new state as first parameter). -/
inductive StateOnly : Program JSVal → Prop where
  | leaf (v : JSVal) : StateOnly (.leaf v)
  | get (params : List JSVal) (k : JSVal → Program JSVal)
      (hk : ∀ a, StateOnly (k a)) : StateOnly (.node "get" params k)
  | put (params : List JSVal) (k : JSVal → Program JSVal)
      (hk : ∀ a, StateOnly (k a)) : StateOnly (.node "put" params k)

/-- Reference state-threading semantics of a `get`/`put` program: a `get`
answers the current state, a `put` answers `undefined` and installs its
parameter as the new state, and the leaf value is the result. -/
def specValue : Program JSVal → JSVal → JSVal
  | .leaf v, _ => v
  | .node name params k, s =>
      if name = "get" then specValue (k s) s
      else specValue (k .undefined) (headJS params)

/-- Apply the carrier at the root of a state-handled program to an initial
state (in the source, calling the returned function); `none` if evaluation
left a residual operation instead of a carrier. -/
def applyCarrier (p : Program StateCarrier) (s : JSVal) :
    Option (Program JSVal) :=
  match p with
  | .leaf f => some (f [s])
  | .node _ _ _ => none

/-- Whether a value is a two-element array, the shape of a
(value, new state) pair. -/
def isPairVal : JSVal → Bool
  | .arr [_, _] => true
  | _ => false

/-- The state-threading scenario program: `get`, then `put` of the gotten
value plus 10, then `get`. -/
def stateProg : Program JSVal :=
  bind get fun x => bind (put (jsAdd x (.num 10))) fun _ => get

/-- `print(x)`: the output operation carrying the printed value. -/
def print (x : JSVal) : Program JSVal := operation "print" [x]

/-- The reverse-order output handler: on `print` it invokes the
continuation first and performs the visible `print` afterwards:
`print(x, resume) { return bind(resume(), () => print(x)) }`. -/
def hprintRev : Model JSVal JSVal where
  ret := Program.leaf
  impl := fun name =>
    if name = "print" then
      some fun params resume =>
        bind (resume .undefined) fun _ => print (headJS params)
    else none

/-- The output scenario program: print `"A"`, `"B"`, `"C"` in that order
(the generator ignores the answers and returns `undefined`). -/
def abc : Program JSVal :=
  go
    (.step (print (.str "A")) fun _ =>
      .step (print (.str "B")) fun _ =>
        .step (print (.str "C")) fun _ => .done .undefined) []

/-- The order of visible actions of a residual output tree: the `run`
handler of the source performs `console.info(x)` and then resumes with no
answer, so the visible actions are the operation parameters along the spine
of `undefined` answers. -/
def printTrace : Program JSVal → List JSVal
  | .leaf _ => []
  | .node _ params k => headJS params :: printTrace (k .undefined)

/-- A structured program with exactly two suspension points: yield `p₁`,
then yield `p₂` applied to the first answer, then return `f` of both
answers. -/
def routine2 (p₁ : Program JSVal) (p₂ : JSVal → Program JSVal)
    (f : JSVal → JSVal → JSVal) : Routine :=
  .step p₁ fun a => .step (p₂ a) fun b => .done (f a b)

/-- An outer handler defining `"frobnicate"` by resuming once with
`undefined` and no `return` transform. -/
def outerFrob : Model JSVal JSVal where
  ret := Program.leaf
  impl := fun name =>
    if name = "frobnicate" then some fun _ resume => resume .undefined
    else none

/-- A node performing `"frobnicate"` whose continuation prints `"A"` and
then `"B"`. -/
def frobThenPrints : Program JSVal :=
  .node "frobnicate" [] fun _ =>
    bind (print (.str "A")) fun _ => print (.str "B")

end AlgEff

namespace AlgEff

/-- A model with no `return` transform that claims no operation name leaves
every program it avoids unchanged. -/
theorem handler_of_avoids {α : Type} (m : Model α α)
    (hret : m.ret = Program.leaf) (p : Program α) (h : Avoids m p) :
    handler m p = p := by
  induction h with
  | leaf v => simp [handler, hret]
  | node name params resume hname hres ih =>
      simp only [handler, hname]
      exact congrArg (Program.node name params) (funext fun a => ih a)

/-- Replaying a concatenated history replays the pieces in order. -/
theorem stepRoutine_append (h₁ h₂ : List JSVal) (r : Routine) :
    stepRoutine r (h₁ ++ h₂) = stepRoutine (stepRoutine r h₁) h₂ := by
  induction h₁ generalizing r with
  | nil => simp [stepRoutine]
  | cons x rest ih =>
      cases r with
      | done v => simpa [stepRoutine] using ih (Routine.done .undefined)
      | step p k => simpa [stepRoutine] using ih (k x)

/-- `go` satisfies the recursion of the source verbatim: step the routine
past the history; if it finished return its value, otherwise `bind` the
yielded program with the continuation that replays the routine from the
start with the extended history `history.concat(x)`. -/
theorem go_replay (gf : Routine) (history : List JSVal) :
    go gf history =
      match stepRoutine gf history with
      | .done v => .leaf v
      | .step p _ => bind p fun x => go gf (history ++ [x]) := by
  unfold go
  cases h : stepRoutine gf history with
  | done v => simp [goA]
  | step p k =>
      simp only [goA]
      refine congrArg (bind p) (funext fun x => ?_)
      rw [stepRoutine_append history [x] gf, h]
      simp [stepRoutine]

/-- C1: `bind` is associative: re-binding a bound tree equals binding with
the composed continuation, for every tree and every pair of continuations. -/
theorem bind_assoc {α β γ : Type} (p : Program α) (f : α → Program β)
    (g : β → Program γ) :
    bind (bind p f) g = bind p (fun a => bind (f a) g) := by
  induction p with
  | leaf v => rfl
  | node name params resume ih =>
      simp only [bind]
      exact congrArg (Program.node name params) (funext fun a => ih a)

/-- C3: the identity leaf laws of `bind`: binding a pure leaf applies the
continuation directly, and binding a program with the pure injection (`id`
in the untyped source, the `leaf` constructor here) returns the program. -/
theorem bind_identity (α β : Type) :
    (∀ (x : α) (f : α → Program β), bind (Program.leaf x) f = f x) ∧
    (∀ p : Program α, bind p Program.leaf = p) := by
  constructor
  · intro x f; rfl
  · intro p
    induction p with
    | leaf v => rfl
    | node name params resume ih =>
        simp only [bind]
        exact congrArg (Program.node name params) (funext fun a => ih a)

/-- C2 (amended): handler forwarding is transparent.  First, a node whose
name the model does not claim evaluates to a node with the same name and
params whose continuation is the model-evaluation of the original
continuation.  Second — amended, since the inner model still pre-evaluates
the subtree behind the forwarded node — for an inner model with no `return`
transform, over a program performing only effects unknown to it, stacking
any outer handler over its output is identical to running the outer handler
alone on the original program. -/
theorem handler_forwarding :
    (∀ (α β : Type) (m : Model α β) (E : String) (ps : List JSVal)
        (k : JSVal → Program α), m.impl E = none →
        handler m (Program.node E ps k) =
          Program.node E ps (fun a => handler m (k a))) ∧
    (∀ (α β : Type) (m : Model α α) (outer : Model α β) (p : Program α),
        m.ret = Program.leaf → Avoids m p →
        handler outer (handler m p) = handler outer p) := by
  constructor
  · intro α β m E ps k h
    simp only [handler, h]
  · intro α β m outer p hret havoid
    rw [handler_of_avoids m hret p havoid]

/-- Witness for C2 at a concrete input: the empty model forwards a
`"frobnicate"` node verbatim, and stacking a handler over the empty model's
output equals running that handler alone. -/
theorem handler_forwarding_witness :
    handler emptyModel (Program.node "frobnicate" [] Program.leaf) =
      Program.node "frobnicate" []
        (fun a => handler emptyModel (Program.leaf a)) ∧
    handler emptyModel (handler emptyModel (operation "frobnicate")) =
      handler emptyModel (operation "frobnicate") :=
  ⟨handler_forwarding.1 JSVal JSVal emptyModel "frobnicate" [] Program.leaf
      rfl,
   handler_forwarding.2 JSVal JSVal emptyModel emptyModel
      (operation "frobnicate") rfl
      (Avoids.node _ _ _ rfl fun a => Avoids.leaf a)⟩

/-- Counterexample to C2 as stated: the reverse-output model has no entry
for `"frobnicate"`, yet over a `"frobnicate"` node whose continuation
prints `"A"` then `"B"` — effects the inner model does handle — stacking an
outer handler defining `"frobnicate"` over the inner model's output prints
`"B","A"`, while the outer handler alone prints `"A","B"`: the two are
observably different. -/
theorem handler_forwarding_counterexample :
    hprintRev.impl "frobnicate" = none ∧
    printTrace (handler outerFrob (handler hprintRev frobThenPrints)) =
      [.str "B", .str "A"] ∧
    printTrace (handler outerFrob frobThenPrints) = [.str "A", .str "B"] ∧
    handler outerFrob (handler hprintRev frobThenPrints) ≠
      handler outerFrob frobThenPrints := by
  refine ⟨rfl, rfl, rfl, fun heq => ?_⟩
  have h2 : [JSVal.str "B", JSVal.str "A"] = [JSVal.str "A", JSVal.str "B"] :=
    congrArg printTrace heq
  injection h2 with h3 h4
  injection h3 with h5
  exact absurd h5 (by decide)

/-- C5: an unhandled effect surfaces distinctly: a `"frobnicate"` operation
evaluated under a model with no entry for that name remains an operation
node named `"frobnicate"` (with its continuation pre-evaluated), and is
never a plain leaf value. -/
theorem unhandled_frobnicate_surfaces {α β : Type} (m : Model α β)
    (ps : List JSVal) (k : JSVal → Program α)
    (h : m.impl "frobnicate" = none) :
    handler m (Program.node "frobnicate" ps k) =
      Program.node "frobnicate" ps (fun a => handler m (k a)) ∧
    opName (handler m (Program.node "frobnicate" ps k)) =
      some "frobnicate" ∧
    ∀ v : β, handler m (Program.node "frobnicate" ps k) ≠ Program.leaf v := by
  have heq : handler m (Program.node "frobnicate" ps k) =
      Program.node "frobnicate" ps (fun a => handler m (k a)) := by
    simp only [handler, h]
  refine ⟨heq, by rw [heq]; rfl, fun v hv => ?_⟩
  rw [heq] at hv
  exact Program.noConfusion hv

/-- Witness for C5: under the empty model, a bare `"frobnicate"` operation
surfaces as an operation node named `"frobnicate"`, not as a leaf. -/
theorem unhandled_frobnicate_surfaces_witness :
    handler emptyModel (Program.node "frobnicate" [] Program.leaf) =
      Program.node "frobnicate" []
        (fun a => handler emptyModel (Program.leaf a)) ∧
    opName (handler emptyModel (Program.node "frobnicate" [] Program.leaf)) =
      some "frobnicate" ∧
    ∀ v : JSVal,
      handler emptyModel (Program.node "frobnicate" [] Program.leaf) ≠
        Program.leaf v :=
  unhandled_frobnicate_surfaces emptyModel [] Program.leaf rfl

/-- C8: on the program that chooses `x` from `{15, 30}` and `y` from
`{5, 10}` and returns `x - y`, the maximizing handler returns the single
value `25`, which is the maximum over all four combinations. -/
theorem pickMax_scenario :
    ghandler pickMax pf = Program.leaf (.num 25) ∧
    jsMax (jsMax (jsSub (.num 15) (.num 5)) (jsSub (.num 15) (.num 10)))
        (jsMax (jsSub (.num 30) (.num 5)) (jsSub (.num 30) (.num 10))) =
      .num 25 := by
  constructor
  · rfl
  · rfl

/-- C6 (amended): the state handler's output carrier is a function from the
old state to the plain result value of the state-threaded run — not to a
(value, state) pair: on every `get`/`put` program, evaluation yields a leaf
carrying a carrier function, and applying it to a state gives exactly the
leaf of the reference state-threading semantics' value. -/
theorem state_carrier_is_state_function (p : Program JSVal)
    (h : StateOnly p) :
    ∀ s : JSVal,
      applyCarrier (handler state p) s = some (.leaf (specValue p s)) := by
  induction h with
  | leaf v => intro s; rfl
  | get params k hk ih =>
      intro s
      have hks := ih s s
      cases hq : handler state (k s) with
      | node name ps r => rw [hq] at hks; simp [applyCarrier] at hks
      | leaf g =>
          rw [hq] at hks
          simp only [applyCarrier, Option.some.injEq] at hks
          show some (ap (handler state (k s)) [.leaf s]) =
            some (.leaf (specValue (.node "get" params k) s))
          rw [hq]
          show some (g [s]) =
            some (.leaf (specValue (.node "get" params k) s))
          rw [hks]
          simp [specValue]
  | put params k hk ih =>
      intro s
      have hks := ih .undefined (headJS params)
      cases hq : handler state (k .undefined) with
      | node name ps r => rw [hq] at hks; simp [applyCarrier] at hks
      | leaf g =>
          rw [hq] at hks
          simp only [applyCarrier, Option.some.injEq] at hks
          show some (ap (handler state (k .undefined)) [.leaf (headJS params)]) =
            some (.leaf (specValue (.node "put" params k) s))
          rw [hq]
          show some (g [headJS params]) =
            some (.leaf (specValue (.node "put" params k) s))
          rw [hks]
          simp [specValue]

/-- Witness for the amended C6 at the concrete scenario program and initial
state `5`. -/
theorem state_carrier_is_state_function_witness :
    applyCarrier (handler state stateProg) (.num 5) =
      some (.leaf (specValue stateProg (.num 5))) :=
  state_carrier_is_state_function stateProg
    (StateOnly.get [] _ fun _ =>
      StateOnly.put _ _ fun _ =>
        StateOnly.get [] _ fun c => StateOnly.leaf c)
    (.num 5)

/-- Counterexample to C6 as stated: on the `get → put(x+10) → get` program,
the carrier produced by the state handler, applied to the old state `5`,
returns the plain value `15` — not a (value, new state) pair. -/
theorem state_carrier_pair_counterexample :
    applyCarrier (handler state stateProg) (.num 5) =
      some (.leaf (.num 15)) ∧
    isPairVal (.num 15) = false := ⟨rfl, rfl⟩

/-- C7: the `get → put(get()+10) → get` program handled by the state
handler and applied to initial state `5` evaluates completely (no residual
operation or other visible state) to the final value `15`. -/
theorem state_scenario :
    applyCarrier (handler state stateProg) (.num 5) =
      some (.leaf (.num 15)) := rfl

/-- C9: the reverse-order output handler, which invokes the continuation
before performing the visible print, turns the program printing `"A"`,
`"B"`, `"C"` into a residual tree whose visible actions are in the order
`"C"`, `"B"`, `"A"`. -/
theorem reverse_output_scenario :
    printTrace (handler hprintRev abc) = [.str "C", .str "B", .str "A"] :=
  rfl

/-- C10: `seq` applied to zero computations returns a leaf whose value is
`undefined` — `all` of the empty list is the leaf `[]`, whose last element
reads as `undefined` — rather than failing. -/
theorem seq_empty_undefined :
    seq [] = Program.leaf JSVal.undefined ∧
    all ([] : List (Program JSVal)) = Program.leaf [] := ⟨rfl, rfl⟩

/-- C4: multi-shot resumption via replay is deterministic: for a structured
two-suspension program, the continuation of the first suspension is the
replay `a ↦ go(gf, [a])`, and resuming it twice with answers `a₁` and `a₂`
gives two sub-evaluations, each depending only on its own answer and each
equal to evaluating the manually constructed bind tree with the same prefix
and that answer. -/
theorem multishot_replay (p₁ : Program JSVal) (p₂ : JSVal → Program JSVal)
    (f : JSVal → JSVal → JSVal) (m : Model JSVal JSVal) (a₁ a₂ : JSVal) :
    go (routine2 p₁ p₂ f) [] =
      bind p₁ (fun a => go (routine2 p₁ p₂ f) [a]) ∧
    handler m (go (routine2 p₁ p₂ f) [a₁]) =
      handler m (bind (p₂ a₁) fun b => .leaf (f a₁ b)) ∧
    handler m (go (routine2 p₁ p₂ f) [a₂]) =
      handler m (bind (p₂ a₂) fun b => .leaf (f a₂ b)) := ⟨rfl, rfl, rfl⟩

end AlgEff
